import Mathlib

/-!
Verification of the `mrstat` merge-request status tool.

The definitions below are a shallow embedding of the TypeScript sources
(`src/gitlab.ts`, `src/index.ts`, `src/util.ts`):

* JavaScript numbers that hold ids/counts are modelled as `Int`.
* JavaScript string truthiness (`!x` true for `undefined` and `""`) and
  number truthiness (`!x` true for `undefined` and `0`) are modelled on
  `Option String` / `Option Int`.
* Promises are modelled with `Except`: a rejected promise is `.error`,
  `Promise.all` over the enrichment sub-tasks is `promiseAll` (any failing
  sub-task fails the whole batch), and the unconstrained completion order
  of the concurrent sub-tasks is modelled separately as folding the
  per-item in-place updates over an arbitrary permutation of the indices.
* `JSON.parse` is a platform builtin, so the body parser of `#get` is an
  abstract parameter `parse : String → Except String T`.
-/

/-! ## Data model (`src/gitlab.ts` type aliases and interfaces) -/

inductive MRState
  | closed
  | merged
  | opened
deriving DecidableEq, Repr

inductive MergeStatus
  | unchecked
  | checking
  | can_be_merged
  | cannot_be_merged
  | cannot_be_merged_recheck
deriving DecidableEq, Repr

/-- The string value carried by the `MergeStatus` union type. -/
def MergeStatus.str : MergeStatus → String
  | .unchecked => "unchecked"
  | .checking => "checking"
  | .can_be_merged => "can_be_merged"
  | .cannot_be_merged => "cannot_be_merged"
  | .cannot_be_merged_recheck => "cannot_be_merged_recheck"

/-- JavaScript `String.prototype.includes`: substring containment. -/
def jsIncludes (s pat : String) : Bool := decide (pat.toList <:+: s.toList)

structure Author where
  id : Int
  name : String
  username : String
deriving DecidableEq, Repr

structure MRApprovalStatus where
  approvals_required : Int
  approvals_left : Int
  id : Int
  iid : Int
  project_id : Int
  title : String
deriving DecidableEq, Repr

structure MergeRequest where
  approvals_needed : Int
  author : Author
  blockers : List String
  blocking_discussions_resolved : Bool
  draft : Bool
  has_conflicts : Bool
  iid : Int
  labels : List String
  merge_status : MergeStatus
  source_branch : String
  state : MRState
  title : String
  web_url : String
  work_in_progress : Bool
deriving DecidableEq, Repr

/-! ## Blocker derivation (`GitLab.#findBlockers`) -/

/-- `GitLab.#findBlockers`: builds the list of human-readable blockers by
four sequential conditional pushes. -/
def GitLab.findBlockers (mr : MergeRequest) : List String :=
  let blockers : List String := []
  let blockers :=
    if !mr.blocking_discussions_resolved then blockers ++ ["unresolved threads"] else blockers
  let blockers :=
    if mr.has_conflicts then blockers ++ ["has conflicts"] else blockers
  let blockers :=
    if jsIncludes mr.merge_status.str "cannot_be_merged" then blockers ++ ["cannot be merged"]
    else blockers
  let blockers :=
    if mr.approvals_needed > 0 then
      blockers ++ ["requires approval (" ++ toString mr.approvals_needed ++ ")"]
    else blockers
  blockers

/-- A merge request with all four blocking conditions set and two approvals
still required. -/
def mrAllBlocked : MergeRequest where
  approvals_needed := 2
  author := ⟨1010, "Alice", "alice"⟩
  blockers := []
  blocking_discussions_resolved := false
  draft := false
  has_conflicts := true
  iid := 7
  labels := []
  merge_status := .cannot_be_merged
  source_branch := "feature"
  state := .opened
  title := "all blocked"
  web_url := "https://example.test/mr/7"
  work_in_progress := false

/-- A merge request with none of the four blocking conditions set. -/
def mrClean : MergeRequest where
  approvals_needed := 0
  author := ⟨1011, "Bob", "bob"⟩
  blockers := []
  blocking_discussions_resolved := true
  draft := false
  has_conflicts := false
  iid := 8
  labels := []
  merge_status := .can_be_merged
  source_branch := "fix"
  state := .opened
  title := "clean"
  web_url := "https://example.test/mr/8"
  work_in_progress := false

/-! ## Configuration and the `GitLab` constructor (`src/gitlab.ts`) -/

/-- The raw configuration object parsed from `~/.mrstat.json`; every field
may be absent (`none`). -/
structure GitLabConfig where
  api_token : Option String
  target_branch : Option String
  authors : Option (List (String × Int))
  project_id : Option Int
deriving DecidableEq, Repr

/-- JavaScript truthiness of a possibly-absent string: `undefined` and `""`
are falsy. -/
def jsStrTruthy : Option String → Bool
  | none => false
  | some s => s ≠ ""

/-- JavaScript truthiness of a possibly-absent number: `undefined` and `0`
are falsy. -/
def jsIntTruthy : Option Int → Bool
  | none => false
  | some n => n ≠ 0

inductive ConfigError
  | missingApiToken
  | missingProjectId
deriving DecidableEq, Repr

/-- The constructed `GitLab` object: the fields assigned at the end of the
constructor. -/
structure GitLab where
  api_token : String
  authors : List (String × Int)
  project_id : Int
  target_branch : String
deriving DecidableEq, Repr

def warnAuthorsLines : List String :=
  ["missing or empty property `authors`", "all open project MRs will be returned"]

def warnBranchLines : List String :=
  ["Configuration missing branch name; defaulting to main"]

/-- The `GitLab` constructor: throws on missing (falsy) `api_token` or
`project_id`, warns on missing/empty `authors` and missing `target_branch`,
then assigns the fields (`authors ?? []`, `target_branch ?? "main"`).
Returns the constructed object together with the warning lines emitted. -/
def GitLab.make (config : GitLabConfig) : Except ConfigError (GitLab × List String) :=
  if !jsStrTruthy config.api_token then .error .missingApiToken
  else if !jsIntTruthy config.project_id then .error .missingProjectId
  else
    let warnings :=
      (if config.authors = none ∨ (config.authors.getD []).length < 1 then warnAuthorsLines
       else []) ++
      (if !jsStrTruthy config.target_branch then warnBranchLines else [])
    .ok ({ api_token := config.api_token.getD ""
           authors := config.authors.getD []
           project_id := config.project_id.getD 0
           target_branch := config.target_branch.getD "main" }, warnings)

/-! ## API gateway model (`GitLab.#get` and the upstream API) -/

inductive GatewayError
  | transport (msg : String)
  | http (status : Nat)
  | decode (msg : String)
deriving DecidableEq, Repr

/-- The environment a run talks to: the response to the one listing call
and the response to each per-iid approvals call. A rejected promise is
`.error`. -/
structure Api where
  listResult : Except GatewayError (List MergeRequest)
  approvalsResult : Int → Except GatewayError MRApprovalStatus

/-! ## Author filter and aggregation (`GitLab.openMergeRequests`) -/

/-- `Object.values(this.authors)`: only the values of the authors table are
used. -/
def authorValues (authors : List (String × Int)) : List Int := authors.map Prod.snd

/-- The author-filter step of `openMergeRequests`:
`author_ids.length > 0 ? all_mrs.filter(mr => author_ids.includes(mr.author.id)) : all_mrs`. -/
def filterByAuthors (author_ids : List Int) (all_mrs : List MergeRequest) : List MergeRequest :=
  if author_ids.length > 0 then
    all_mrs.filter (fun mr => author_ids.contains mr.author.id)
  else all_mrs

/-- The `.then` callback of one enrichment sub-task: assigns
`approvals_needed` from the approval response, then recomputes `blockers`
with `#findBlockers` on the updated record. -/
def enrichMR (approvals : MRApprovalStatus) (mr : MergeRequest) : MergeRequest :=
  let mr1 := { mr with approvals_needed := approvals.approvals_left }
  { mr1 with blockers := GitLab.findBlockers mr1 }

/-- `Promise.all` over settled promises: succeeds with all values when
every promise resolved, and rejects when any promise rejected (the model
surfaces the first rejection in list order, one admissible settlement). -/
def promiseAll {ε α : Type} : List (Except ε α) → Except ε (List α)
  | [] => .ok []
  | .error e :: _ => .error e
  | .ok a :: rest => (promiseAll rest).map (a :: ·)

/-- `GitLab.openMergeRequests`: one listing call, the author filter, then
`Promise.all` over the per-item approval calls; each sub-task enriches its
own item, and the call resolves with the items in their original order
(or rejects if the listing call or any sub-task rejected). -/
def GitLab.openMergeRequests (gl : GitLab) (api : Api) :
    Except GatewayError (List MergeRequest) :=
  match api.listResult with
  | .error e => .error e
  | .ok all_mrs =>
    let mrs := filterByAuthors (authorValues gl.authors) all_mrs
    promiseAll (mrs.map (fun mr => (api.approvalsResult mr.iid).map (fun a => enrichMR a mr)))

/-! ## Grouping and formatting (`src/util.ts`, `src/index.ts`) -/

/-- `groupBy` from `src/util.ts`, with the insertion-ordered JS `Map`
modelled as an association list: for each element in order, push onto the
existing bucket if the key is present, otherwise append a new singleton
bucket. -/
def groupStep {T K : Type} [DecidableEq K] (f : T → K) (m : List (K × List T)) (x : T) :
    List (K × List T) :=
  let key := f x
  if m.any (fun p => decide (p.1 = key)) then
    m.map (fun p => if p.1 = key then (p.1, p.2 ++ [x]) else p)
  else m ++ [(key, [x])]

def groupBy {T K : Type} [DecidableEq K] (f : T → K) (xs : List T) : List (K × List T) :=
  xs.foldl (groupStep f) []

/-- `Map.get` on the association-list model (`none` when `Map.has` is
false). -/
def mapGet {T K : Type} [DecidableEq K] : List (K × List T) → K → Option (List T)
  | [], _ => none
  | p :: m, k => if p.1 = k then some p.2 else mapGet m k

/-- The grouping key used in `main`:
`mr.blockers.length > 0 ? "blocked" : "ready"`. -/
def mrKey (mr : MergeRequest) : String :=
  if mr.blockers.length > 0 then "blocked" else "ready"

/-- The `"ready"` bucket of `main`'s grouped map (`[]` when absent). -/
def readyBucket (items : List MergeRequest) : List MergeRequest :=
  (mapGet (groupBy mrKey items) "ready").getD []

/-- The `"blocked"` bucket of `main`'s grouped map (`[]` when absent). -/
def blockedBucket (items : List MergeRequest) : List MergeRequest :=
  (mapGet (groupBy mrKey items) "blocked").getD []

/-- The lines `formatMRs` pushes for one merge request. -/
def formatMRLines (mr : MergeRequest) : List String :=
  ["    * [" ++ mr.title ++ "](" ++ mr.web_url ++ ") (" ++ mr.author.username ++ ")\n"] ++
  (if mr.labels.length > 0 then
    ["        * Labels: " ++ String.intercalate ", " mr.labels ++ "\n"]
   else []) ++
  (if mr.blockers.length > 0 then
    ["        * " ++ String.intercalate ", " mr.blockers ++ "\n"]
   else [])

/-- `formatMRs` from `src/util.ts`. -/
def formatMRs (header : String) (mrs : List MergeRequest) : String :=
  String.join (["* *" ++ header ++ "*\n"] ++ mrs.flatMap formatMRLines)

/-- The report string `main` assembles and writes to stdout: header line,
then the `"ready"` and `"blocked"` sections when their bucket exists
(`mrs.has(k) && formatMRs(...)` followed by `.filter(Boolean)`). -/
def renderReport (target_branch : String) (items : List MergeRequest) : String :=
  let m := groupBy mrKey items
  String.join
    (["\n*Open MRs against `" ++ target_branch ++ "`:*\n"] ++
      (match mapGet m "ready" with
       | some l => [formatMRs "Ready to Merge" l]
       | none => []) ++
      (match mapGet m "blocked" with
       | some l => [formatMRs "Blocked" l]
       | none => []))

inductive RunError
  | config (e : ConfigError)
  | gateway (e : GatewayError)
deriving DecidableEq, Repr

/-- The whole run of `main` against a given API environment: construct the
`GitLab` object from the configuration, fetch/filter/enrich, and on success
render the report. `.error` means the run surfaced that error and wrote no
report to stdout (`main` only prints the caught error's message to
stderr). -/
def runMrstat (config : GitLabConfig) (api : Api) : Except RunError String :=
  match GitLab.make config with
  | .error e => .error (.config e)
  | .ok (gl, _) =>
    match gl.openMergeRequests api with
    | .error e => .error (.gateway e)
    | .ok mrs => .ok (renderReport gl.target_branch mrs)

/-! ## The `#get` request/response model (`src/gitlab.ts`) -/

def GITLAB_API_BASE : String := "https://gitlab.com/api/v4"

/-- `new URLSearchParams(params).toString()` (percent-encoding elided:
the serialisation is `k=v` pairs joined by `&`). -/
def queryString (params : List (String × String)) : String :=
  String.intercalate "&" (params.map (fun p => p.1 ++ "=" ++ p.2))

/-- The `baseURL` local of `#get`. -/
def GitLab.baseURL (gl : GitLab) : String :=
  GITLAB_API_BASE ++ "/projects/" ++ toString gl.project_id

/-- The full request URL: base, uri, and the serialised query (no `?` when
there are no parameters). -/
def GitLab.requestUrl (gl : GitLab) (uri : String) (params : List (String × String)) : String :=
  gl.baseURL ++ uri ++ (if params = [] then "" else "?" ++ queryString params)

/-- `url.toString().slice(baseURL.length)`: the path-and-query shown in
diagnostics. -/
def GitLab.logUrl (gl : GitLab) (uri : String) (params : List (String × String)) : String :=
  (gl.requestUrl uri params).drop gl.baseURL.length

/-- The pre-request diagnostic line of `#get`. -/
def GitLab.requestLogLine (gl : GitLab) (uri : String) (params : List (String × String)) :
    String :=
  gl.logUrl uri params ++ " - requesting..."

/-- The post-request diagnostic line of `#get` (`n` = body length in
bytes). -/
def GitLab.responseLogLine (gl : GitLab) (uri : String) (params : List (String × String))
    (n : Nat) : String :=
  gl.logUrl uri params ++ " - received " ++ toString n ++ " bytes."

/-- The message of the error `#get` rejects with on a non-2xx status. -/
def statusErrorMsg (sc : Nat) : String := "statusCode=" ++ toString sc

/-- The single request header `#get` sends: the bearer token travels only
here. -/
def GitLab.requestHeaders (gl : GitLab) : List (String × String) :=
  [("authorization", "Bearer " ++ gl.api_token)]

/-- An HTTP response as `#get`'s callback sees it: `statusCode` may be
absent, and the concatenated body chunks form a string. -/
structure HttpResponse where
  statusCode : Option Nat
  body : String
deriving DecidableEq, Repr

/-- `JSON.parse` then `resolve`/`reject`, as `#get`'s `end` handler does:
a parse failure rejects with a decode error (the later `resolve(undefined)`
is a no-op because the promise is already settled). -/
def parseBody {T : Type} (parse : String → Except String T) (body : String) :
    Except GatewayError T :=
  match parse body with
  | .ok v => .ok v
  | .error msg => .error (.decode msg)

/-- `#get`'s response handling: `if (statusCode && (statusCode < 200 ||
statusCode >= 300)) reject(...)`, otherwise read and parse the body.
JavaScript truthiness makes the status check apply only when `statusCode`
is present and non-zero. -/
def handleResponse {T : Type} (parse : String → Except String T) (res : HttpResponse) :
    Except GatewayError T :=
  match res.statusCode with
  | some sc =>
    if sc ≠ 0 ∧ (sc < 200 ∨ sc ≥ 300) then .error (.http sc)
    else parseBody parse res.body
  | none => parseBody parse res.body

/-! ## Completion-order model of the concurrent enrichment fan-out

`Promise.all` starts one sub-task per filtered item; each sub-task mutates
only its own item (by identity), so we model a completion schedule as a
permutation of the item indices and apply the per-item updates in that
order. -/

/-- Replace the element at index `i` by `f` applied to it (identity when
out of range): one sub-task's in-place mutation of its own item. -/
def modifyAt {α : Type} : List α → Nat → (α → α) → List α
  | [], _, _ => []
  | a :: as, 0, f => f a :: as
  | a :: as, n + 1, f => a :: modifyAt as n f

/-- One enrichment sub-task completing: item `i` is updated in place with
its approval response. -/
def enrichStep (appr : Nat → MRApprovalStatus) (mrs : List MergeRequest) (i : Nat) :
    List MergeRequest :=
  modifyAt mrs i (enrichMR (appr i))

/-- Run the enrichment sub-tasks to completion in the schedule `order`. -/
def applyCompletions (appr : Nat → MRApprovalStatus) (mrs : List MergeRequest)
    (order : List Nat) : List MergeRequest :=
  order.foldl (enrichStep appr) mrs

/-- The sequential reference result: every item enriched in place, in the
original order. -/
def enrichSeq (appr : Nat → MRApprovalStatus) : List MergeRequest → List MergeRequest
  | [] => []
  | mr :: rest => enrichMR (appr 0) mr :: enrichSeq (fun i => appr (i + 1)) rest

/-- C1: `GitLab.#findBlockers` is total and evaluates exactly the four
conditions in the fixed order, each appending at most one string; the
substring test on `merge_status` holds exactly for the two
`cannot_be_merged*` statuses; the all-true example with two approvals
needed gives the four strings in order, and the all-false example gives
the empty list. -/
theorem C1_findBlockers_characterization :
    (∀ mr : MergeRequest,
      GitLab.findBlockers mr =
        (if mr.blocking_discussions_resolved = false then ["unresolved threads"] else []) ++
        (if mr.has_conflicts = true then ["has conflicts"] else []) ++
        (if mr.merge_status = MergeStatus.cannot_be_merged ∨
            mr.merge_status = MergeStatus.cannot_be_merged_recheck then ["cannot be merged"]
         else []) ++
        (if mr.approvals_needed > 0 then
          ["requires approval (" ++ toString mr.approvals_needed ++ ")"]
         else [])) ∧
    (∀ ms : MergeStatus,
      jsIncludes ms.str "cannot_be_merged" = true ↔
        (ms = MergeStatus.cannot_be_merged ∨ ms = MergeStatus.cannot_be_merged_recheck)) ∧
    GitLab.findBlockers mrAllBlocked =
      ["unresolved threads", "has conflicts", "cannot be merged", "requires approval (2)"] ∧
    GitLab.findBlockers mrClean = [] := by
  refine ⟨fun mr => ?_, fun ms => ?_, by decide, by decide⟩
  · cases h1 : mr.blocking_discussions_resolved <;>
      cases h2 : mr.has_conflicts <;>
      cases h3 : mr.merge_status <;>
      simp [GitLab.findBlockers, h1, h2, h3, jsIncludes, MergeStatus.str] <;>
      split <;> rfl
  · cases ms <;> simp [jsIncludes, MergeStatus.str] <;> decide

/-- C2: the author filter is the identity when the set of allowed author
ids (the values of the authors table) is empty; otherwise it returns the
stable-order subsequence of the input whose `author.id` is allowed — every
kept item is allowed, and no item with an allowed id is dropped. -/
theorem C2_filterByAuthors_spec (authors : List (String × Int)) (items : List MergeRequest) :
    (authorValues authors = [] → filterByAuthors (authorValues authors) items = items) ∧
    (authorValues authors ≠ [] →
      (filterByAuthors (authorValues authors) items).Sublist items ∧
      (∀ mr ∈ filterByAuthors (authorValues authors) items,
        mr.author.id ∈ authorValues authors) ∧
      (∀ mr ∈ items, mr.author.id ∈ authorValues authors →
        mr ∈ filterByAuthors (authorValues authors) items)) := by
  constructor
  · intro h
    simp [filterByAuthors, h]
  · intro h
    have hlen : 0 < (authorValues authors).length := List.length_pos.mpr h
    refine ⟨?_, ?_, ?_⟩
    · simp only [filterByAuthors, if_pos hlen]
      exact List.filter_sublist items
    · intro mr hmr
      simp only [filterByAuthors, if_pos hlen, List.mem_filter] at hmr
      simpa using hmr.2
    · intro mr hmr hid
      simp only [filterByAuthors, if_pos hlen, List.mem_filter]
      exact ⟨hmr, by simpa using hid⟩

/-- Witness for C2 at a one-entry authors table whose id matches the one
item. -/
theorem C2_filterByAuthors_witness :
    mrAllBlocked ∈ filterByAuthors (authorValues [("alice", (1010 : Int))]) [mrAllBlocked] :=
  ((C2_filterByAuthors_spec [("alice", (1010 : Int))] [mrAllBlocked]).2 (by decide)).2.2
    mrAllBlocked (by simp) (by decide)

/-- C7: a configuration with a missing `api_token` or `project_id` makes
the constructor throw, and a constructor error makes the whole run fail
identically for every API environment (so no request is ever issued);
a missing or empty `authors` table is non-fatal: construction succeeds,
the `authors` warning is emitted, and the resulting author filter is the
identity. -/
theorem C7_constructor_validation :
    (∀ config : GitLabConfig, (config.api_token = none ∨ config.project_id = none) →
      ∃ e, GitLab.make config = .error e) ∧
    (∀ config : GitLabConfig, ∀ e, GitLab.make config = .error e →
      ∀ api : Api, runMrstat config api = .error (.config e)) ∧
    (∀ config : GitLabConfig,
      jsStrTruthy config.api_token = true → jsIntTruthy config.project_id = true →
      config.authors.getD [] = [] →
      ∃ gl warnings, GitLab.make config = .ok (gl, warnings) ∧
        "missing or empty property `authors`" ∈ warnings ∧
        gl.authors = [] ∧
        ∀ mrs, filterByAuthors (authorValues gl.authors) mrs = mrs) := by
  refine ⟨?_, ?_, ?_⟩
  · intro config h
    rcases h with h | h
    · exact ⟨.missingApiToken, by simp [GitLab.make, h, jsStrTruthy]⟩
    · cases ht : jsStrTruthy config.api_token
      · exact ⟨.missingApiToken, by simp [GitLab.make, ht]⟩
      · exact ⟨.missingProjectId, by simp [GitLab.make, ht, h, jsIntTruthy]⟩
  · intro config e h api
    simp [runMrstat, h]
  · intro config ht hp ha
    have hcond : config.authors = none ∨ (config.authors.getD []).length < 1 := by
      cases hA : config.authors with
      | none => exact Or.inl rfl
      | some l =>
        right
        rw [hA] at ha
        simp only [Option.getD_some] at ha
        simp [ha]
    refine ⟨{ api_token := config.api_token.getD ""
              authors := config.authors.getD []
              project_id := config.project_id.getD 0
              target_branch := config.target_branch.getD "main" },
            warnAuthorsLines ++ (if !jsStrTruthy config.target_branch then warnBranchLines
              else []), ?_, ?_, ?_, ?_⟩
    · simp only [GitLab.make, ht, hp, Bool.not_true, Bool.false_eq_true, if_false,
        if_pos hcond]
    · simp [warnAuthorsLines]
    · exact ha
    · intro mrs
      simp [ha, authorValues, filterByAuthors]

/-- Witness for C7 at a fully absent configuration. -/
theorem C7_constructor_validation_witness :
    ∃ e, GitLab.make ⟨none, none, none, none⟩ = .error e :=
  C7_constructor_validation.1 ⟨none, none, none, none⟩ (Or.inl rfl)

/-- C9: required fields are tested by truthiness, not key presence: a
present-but-empty `api_token` and a present-but-zero `project_id` produce
the same "missing" errors as genuinely absent fields. -/
theorem C9_truthiness_not_presence :
    GitLab.make ⟨some "", some "main", some [("a", 1)], some 5⟩ =
      .error .missingApiToken ∧
    GitLab.make ⟨none, some "main", some [("a", 1)], some 5⟩ =
      .error .missingApiToken ∧
    GitLab.make ⟨some "tok", some "main", some [("a", 1)], some 0⟩ =
      .error .missingProjectId ∧
    GitLab.make ⟨some "tok", some "main", some [("a", 1)], none⟩ =
      .error .missingProjectId := by
  refine ⟨rfl, rfl, rfl, rfl⟩

/-- Helper: `Promise.all` over per-element sub-tasks resolves with the
mapped results when every sub-task resolves. -/
theorem promiseAll_map_ok {ε α β : Type} (step : α → Except ε β) (g : α → β)
    (l : List α) (h : ∀ x ∈ l, step x = .ok (g x)) :
    promiseAll (l.map step) = .ok (l.map g) := by
  induction l with
  | nil => rfl
  | cons x xs ih =>
    have hx := h x (List.mem_cons_self x xs)
    rw [List.map_cons, hx]
    show (promiseAll (xs.map step)).map (g x :: ·) = _
    rw [ih (fun y hy => h y (List.mem_cons_of_mem x hy))]
    rfl

/-- Helper: `Promise.all` rejects when some sub-task rejects, and the
rejection reason is one of the failing sub-tasks' errors. -/
theorem promiseAll_map_error {ε α β : Type} (step : α → Except ε β)
    (l : List α) (h : ∃ x ∈ l, ∃ e, step x = .error e) :
    ∃ e, promiseAll (l.map step) = .error e ∧ ∃ x ∈ l, step x = .error e := by
  induction l with
  | nil => simp at h
  | cons x xs ih =>
    cases hs : step x with
    | error e =>
      refine ⟨e, ?_, x, List.mem_cons_self x xs, hs⟩
      rw [List.map_cons, hs]
      rfl
    | ok b =>
      have hxs : ∃ y ∈ xs, ∃ e, step y = .error e := by
        rcases h with ⟨y, hy, e, he⟩
        rcases List.mem_cons.mp hy with rfl | hy'
        · rw [hs] at he
          exact absurd he (by simp)
        · exact ⟨y, hy', e, he⟩
      rcases ih hxs with ⟨e, hpa, y, hy, hye⟩
      refine ⟨e, ?_, y, List.mem_cons_of_mem x hy, hye⟩
      rw [List.map_cons, hs]
      show (promiseAll (xs.map step)).map (b :: ·) = .error e
      rw [hpa]
      rfl

/-- C5: when a response carries a (nonzero) status code, `#get` rejects
with the HTTP error exactly when the status is outside 200–299; when the
status is in 200–299, `#get` rejects with the decode error when the body
does not parse and resolves with the parsed value when it does. -/
theorem C5_get_response_contract {T : Type} (parse : String → Except String T)
    (res : HttpResponse) (sc : Nat) (hsc : res.statusCode = some sc) (h0 : 0 < sc) :
    (¬(200 ≤ sc ∧ sc < 300) → handleResponse parse res = .error (.http sc)) ∧
    ((200 ≤ sc ∧ sc < 300) →
      (∀ msg, parse res.body = .error msg →
        handleResponse parse res = .error (.decode msg)) ∧
      (∀ v, parse res.body = .ok v → handleResponse parse res = .ok v)) := by
  constructor
  · intro h
    have hcond : sc ≠ 0 ∧ (sc < 200 ∨ sc ≥ 300) := ⟨by omega, by omega⟩
    simp only [handleResponse, hsc]
    rw [if_pos hcond]
  · intro h
    have hcond : ¬(sc ≠ 0 ∧ (sc < 200 ∨ sc ≥ 300)) := by omega
    constructor
    · intro msg hmsg
      simp only [handleResponse, hsc]
      rw [if_neg hcond]
      simp [parseBody, hmsg]
    · intro v hv
      simp only [handleResponse, hsc]
      rw [if_neg hcond]
      simp [parseBody, hv]

/-- Witness for C5: a 404 response rejects with the HTTP error. -/
theorem C5_get_response_contract_witness :
    handleResponse (fun s => Except.ok s) ⟨some 404, "nope"⟩ = .error (.http 404) :=
  (C5_get_response_contract (fun s => Except.ok s) ⟨some 404, "nope"⟩ 404 rfl
    (by decide)).1 (by decide)

/-- C10: when the response has no status code at all, `#get` skips the
status check entirely — it parses the body and never rejects with an HTTP
status error. -/
theorem C10_undefined_status_skips_check {T : Type} (parse : String → Except String T)
    (res : HttpResponse) (h : res.statusCode = none) :
    handleResponse parse res = parseBody parse res.body ∧
    ∀ s : Nat, handleResponse parse res ≠ .error (.http s) := by
  have h1 : handleResponse parse res = parseBody parse res.body := by
    simp only [handleResponse, h]
  refine ⟨h1, ?_⟩
  intro s
  rw [h1]
  unfold parseBody
  cases hp : parse res.body <;> simp

/-- Witness for C10: a response without a status code resolves with the
parsed body rather than an HTTP error. -/
theorem C10_undefined_status_skips_check_witness :
    handleResponse (fun _ => Except.ok (0 : Int)) ⟨none, "[]"⟩ ≠ .error (.http 500) :=
  (C10_undefined_status_skips_check (fun _ => Except.ok (0 : Int)) ⟨none, "[]"⟩ rfl).2 500

/-- C8: the diagnostic lines and the request URL are invariant under
changing the bearer token (the token influences only the authorization
header, where it appears as `Bearer <token>`), and the non-2xx rejection
message is built from the numeric status alone. -/
theorem C8_token_only_in_auth_header (gl : GitLab) (t t' : String) (uri : String)
    (params : List (String × String)) (n : Nat) (sc : Nat) :
    GitLab.requestLogLine { gl with api_token := t } uri params =
      GitLab.requestLogLine { gl with api_token := t' } uri params ∧
    GitLab.responseLogLine { gl with api_token := t } uri params n =
      GitLab.responseLogLine { gl with api_token := t' } uri params n ∧
    GitLab.requestUrl { gl with api_token := t } uri params =
      GitLab.requestUrl { gl with api_token := t' } uri params ∧
    GitLab.requestHeaders { gl with api_token := t } = [("authorization", "Bearer " ++ t)] ∧
    statusErrorMsg sc = "statusCode=" ++ toString sc :=
  ⟨rfl, rfl, rfl, rfl, rfl⟩


/-- Helper: `Map.has` (the `any` test in `groupBy`) agrees with `Map.get`
being defined. -/
theorem any_key_eq_isSome {T K : Type} [DecidableEq K] (m : List (K × List T)) (k : K) :
    m.any (fun p => decide (p.1 = k)) = (mapGet m k).isSome := by
  induction m with
  | nil => rfl
  | cons p m ih =>
    by_cases hp : p.1 = k
    · simp [mapGet, hp]
    · simp [mapGet, hp, ih]

/-- Helper: looking up in a map extended with one trailing entry. -/
theorem mapGet_append_single {T K : Type} [DecidableEq K] (m : List (K × List T))
    (key k : K) (l : List T) :
    mapGet (m ++ [(key, l)]) k =
      match mapGet m k with
      | some r => some r
      | none => if key = k then some l else none := by
  induction m with
  | nil =>
    by_cases h : key = k
    · simp [mapGet, h]
    · simp [mapGet, h]
  | cons p m ih =>
    by_cases hp : p.1 = k
    · simp [mapGet, hp]
    · simp [mapGet, hp, ih]

/-- Helper: pushing onto the bucket of key `k` changes the lookup at `k`
by appending the element. -/
theorem mapGet_map_push {T K : Type} [DecidableEq K] (m : List (K × List T)) (k : K) (x : T) :
    mapGet (m.map (fun p => if p.1 = k then (p.1, p.2 ++ [x]) else p)) k =
      (mapGet m k).map (fun l => l ++ [x]) := by
  induction m with
  | nil => rfl
  | cons p m ih =>
    by_cases hp : p.1 = k
    · simp [mapGet, hp]
    · simp [mapGet, hp, ih]

/-- Helper: pushing onto the bucket of another key leaves the lookup at `k`
unchanged. -/
theorem mapGet_map_push_ne {T K : Type} [DecidableEq K] (m : List (K × List T))
    (k key : K) (x : T) (hne : key ≠ k) :
    mapGet (m.map (fun p => if p.1 = key then (p.1, p.2 ++ [x]) else p)) k = mapGet m k := by
  induction m with
  | nil => rfl
  | cons p m ih =>
    by_cases hp : p.1 = key
    · have hpk : p.1 ≠ k := by
        rw [hp]
        exact hne
      simp [mapGet, hp, hpk, hne, ih]
    · by_cases hpk : p.1 = k
      · simp [mapGet, hp, hpk, Ne.symm hne]
      · simp [mapGet, hp, hpk, ih]

/-- Helper: the effect of one `groupBy` iteration on a lookup. -/
theorem mapGet_groupStep {T K : Type} [DecidableEq K] (f : T → K) (m : List (K × List T))
    (x : T) (k : K) :
    mapGet (groupStep f m x) k =
      if f x = k then some ((mapGet m k).getD [] ++ [x]) else mapGet m k := by
  by_cases hk : f x = k
  · subst hk
    rw [if_pos rfl]
    simp only [groupStep]
    cases hs : mapGet m (f x) with
    | none =>
      have hany : m.any (fun p => decide (p.1 = f x)) = false := by
        rw [any_key_eq_isSome, hs]
        rfl
      rw [hany]
      simp only [Bool.false_eq_true, if_false]
      rw [mapGet_append_single, hs]
      simp
    | some l =>
      have hany : m.any (fun p => decide (p.1 = f x)) = true := by
        rw [any_key_eq_isSome, hs]
        rfl
      rw [hany]
      simp only [if_true]
      rw [mapGet_map_push, hs]
      simp
  · rw [if_neg hk]
    simp only [groupStep]
    cases hany : m.any (fun p => decide (p.1 = f x)) with
    | true =>
      simp only [if_true]
      exact mapGet_map_push_ne m k (f x) x hk
    | false =>
      simp only [Bool.false_eq_true, if_false]
      rw [mapGet_append_single]
      cases hm : mapGet m k <;> simp [hk]

/-- Helper: a lookup after folding `groupBy`'s step over a list: the bucket
accumulates exactly the matching elements, in order. -/
theorem mapGet_foldl_groupStep {T K : Type} [DecidableEq K] (f : T → K) (k : K) :
    ∀ (xs : List T) (m : List (K × List T)),
      mapGet (xs.foldl (groupStep f) m) k =
        match mapGet m k, xs.filter (fun x => decide (f x = k)) with
        | some ys, zs => some (ys ++ zs)
        | none, [] => none
        | none, zs => some zs := by
  intro xs
  induction xs with
  | nil =>
    intro m
    cases hm : mapGet m k <;> simp [hm]
  | cons x xs ih =>
    intro m
    rw [List.foldl_cons, ih (groupStep f m x), mapGet_groupStep]
    by_cases hk : f x = k
    · rw [if_pos hk]
      have hfilter : (x :: xs).filter (fun x => decide (f x = k)) =
          x :: xs.filter (fun x => decide (f x = k)) := by
        simp [List.filter_cons, hk]
      rw [hfilter]
      cases hm : mapGet m k with
      | none => simp
      | some ys => simp
    · rw [if_neg hk]
      have hfilter : (x :: xs).filter (fun x => decide (f x = k)) =
          xs.filter (fun x => decide (f x = k)) := by
        simp [List.filter_cons, hk]
      rw [hfilter]

/-- Helper: a lookup in `groupBy f xs` is the (possibly absent) list of
elements with that key, in input order. -/
theorem mapGet_groupBy {T K : Type} [DecidableEq K] (f : T → K) (xs : List T) (k : K) :
    mapGet (groupBy f xs) k =
      match xs.filter (fun x => decide (f x = k)) with
      | [] => none
      | zs => some zs := by
  rw [groupBy, mapGet_foldl_groupStep]
  cases xs.filter (fun x => decide (f x = k)) <;> rfl

/-- Helper: the `"ready"` bucket is the in-order sublist of items with no
blockers. -/
theorem readyBucket_eq_filter (items : List MergeRequest) :
    readyBucket items = items.filter (fun mr => mr.blockers.isEmpty) := by
  have hkey : ∀ mr : MergeRequest, decide (mrKey mr = "ready") = mr.blockers.isEmpty := by
    intro mr
    have h1 : ("blocked" : String) ≠ "ready" := by decide
    cases h : mr.blockers <;> simp [mrKey, h, h1]
  have hcong : items.filter (fun mr => decide (mrKey mr = "ready")) =
      items.filter (fun mr => mr.blockers.isEmpty) :=
    List.filter_congr (fun mr _ => hkey mr)
  rw [readyBucket, mapGet_groupBy, hcong]
  cases hf : items.filter (fun mr => mr.blockers.isEmpty) <;> rfl

/-- Helper: the `"blocked"` bucket is the in-order sublist of items with at
least one blocker. -/
theorem blockedBucket_eq_filter (items : List MergeRequest) :
    blockedBucket items = items.filter (fun mr => !mr.blockers.isEmpty) := by
  have hkey : ∀ mr : MergeRequest, decide (mrKey mr = "blocked") = !mr.blockers.isEmpty := by
    intro mr
    have h1 : ("ready" : String) ≠ "blocked" := by decide
    cases h : mr.blockers <;> simp [mrKey, h, h1]
  have hcong : items.filter (fun mr => decide (mrKey mr = "blocked")) =
      items.filter (fun mr => !mr.blockers.isEmpty) :=
    List.filter_congr (fun mr _ => hkey mr)
  rw [blockedBucket, mapGet_groupBy, hcong]
  cases hf : items.filter (fun mr => !mr.blockers.isEmpty) <;> rfl

/-- C3: grouping is a partition: the `"ready"` bucket is exactly the items
with an empty blockers list and the `"blocked"` bucket exactly those with a
non-empty one; each bucket preserves input order, the bucket sizes add up
to the input size, every item lands in some bucket, and no item lands in
both. -/
theorem C3_group_partition (items : List MergeRequest) :
    readyBucket items = items.filter (fun mr => mr.blockers.isEmpty) ∧
    blockedBucket items = items.filter (fun mr => !mr.blockers.isEmpty) ∧
    (readyBucket items).Sublist items ∧
    (blockedBucket items).Sublist items ∧
    (readyBucket items).length + (blockedBucket items).length = items.length ∧
    (∀ mr, mr ∈ items ↔ (mr ∈ readyBucket items ∨ mr ∈ blockedBucket items)) ∧
    (∀ mr, ¬(mr ∈ readyBucket items ∧ mr ∈ blockedBucket items)) := by
  have hr := readyBucket_eq_filter items
  have hb := blockedBucket_eq_filter items
  refine ⟨hr, hb, ?_, ?_, ?_, ?_, ?_⟩
  · rw [hr]
    exact List.filter_sublist items
  · rw [hb]
    exact List.filter_sublist items
  · rw [hr, hb]
    have hperm := List.filter_append_perm (fun mr => mr.blockers.isEmpty) items
    have hlen := hperm.length_eq
    simpa [List.length_append] using hlen
  · intro mr
    rw [hr, hb]
    simp only [List.mem_filter]
    constructor
    · intro h
      cases hE : mr.blockers.isEmpty with
      | true => exact Or.inl ⟨h, rfl⟩
      | false => exact Or.inr ⟨h, rfl⟩
    · rintro (⟨h, _⟩ | ⟨h, _⟩) <;> exact h
  · intro mr
    rintro ⟨hm1, hm2⟩
    rw [hr] at hm1
    rw [hb] at hm2
    simp only [List.mem_filter] at hm1 hm2
    rw [hm1.2] at hm2
    simp at hm2

/-- Helper: in-place updates at two indices commute (trivially so at equal
indices, structurally at distinct ones). -/
theorem modifyAt_comm {α : Type} (l : List α) (i j : Nat) (f g : α → α) (h : i ≠ j) :
    modifyAt (modifyAt l i f) j g = modifyAt (modifyAt l j g) i f := by
  induction l generalizing i j with
  | nil => rfl
  | cons a as ih =>
    cases i with
    | zero =>
      cases j with
      | zero => exact absurd rfl h
      | succ j => rfl
    | succ i =>
      cases j with
      | zero => rfl
      | succ j =>
        simp only [modifyAt, List.cons.injEq, true_and]
        exact ih i j (fun e => h (by rw [e]))

/-- Helper: enrichment sub-task completions right-commute: each writes only
its own index. -/
theorem enrichStep_right_comm (appr : Nat → MRApprovalStatus)
    (mrs : List MergeRequest) (i j : Nat) :
    enrichStep appr (enrichStep appr mrs i) j = enrichStep appr (enrichStep appr mrs j) i := by
  by_cases h : i = j
  · rw [h]
  · exact modifyAt_comm mrs i j _ _ h

/-- Helper: updates at successor indices skip the head. -/
theorem foldl_enrichStep_map_succ (appr : Nat → MRApprovalStatus) (idxs : List Nat) :
    ∀ (b : MergeRequest) (bs : List MergeRequest),
      (idxs.map Nat.succ).foldl (enrichStep appr) (b :: bs) =
        b :: idxs.foldl (enrichStep (fun i => appr (i + 1))) bs := by
  induction idxs with
  | nil =>
    intro b bs
    rfl
  | cons i idxs ih =>
    intro b bs
    have hstep : enrichStep appr (b :: bs) (Nat.succ i) =
        b :: enrichStep (fun i => appr (i + 1)) bs i := rfl
    simp only [List.map_cons, List.foldl_cons, hstep, ih]

/-- Helper: completing the sub-tasks in index order yields the sequential
in-place enrichment. -/
theorem applyCompletions_range (mrs : List MergeRequest) :
    ∀ appr : Nat → MRApprovalStatus,
      applyCompletions appr mrs (List.range mrs.length) = enrichSeq appr mrs := by
  induction mrs with
  | nil =>
    intro appr
    rfl
  | cons mr rest ih =>
    intro appr
    show (List.range (mr :: rest).length).foldl (enrichStep appr) (mr :: rest) = _
    rw [List.length_cons, List.range_succ_eq_map, List.foldl_cons]
    have hstep : enrichStep appr (mr :: rest) 0 = enrichMR (appr 0) mr :: rest := rfl
    rw [hstep, foldl_enrichStep_map_succ appr (List.range rest.length)]
    rw [show (List.range rest.length).foldl (enrichStep fun i => appr (i + 1)) rest =
        applyCompletions (fun i => appr (i + 1)) rest (List.range rest.length) from rfl]
    rw [ih (fun i => appr (i + 1))]
    rfl

/-- Helper: the sequential enrichment maps index `i` of the input to its
enriched form at index `i` of the output. -/
theorem enrichSeq_getElem? (mrs : List MergeRequest) :
    ∀ (appr : Nat → MRApprovalStatus) (i : Nat),
      (enrichSeq appr mrs)[i]? = (mrs[i]?).map (fun mr => enrichMR (appr i) mr) := by
  induction mrs with
  | nil =>
    intro appr i
    rfl
  | cons mr rest ih =>
    intro appr i
    cases i with
    | zero => simp [enrichSeq]
    | succ i => simp [enrichSeq, ih (fun j => appr (j + 1)) i]

/-- Helper: sequential enrichment preserves length. -/
theorem enrichSeq_length (mrs : List MergeRequest) :
    ∀ appr : Nat → MRApprovalStatus, (enrichSeq appr mrs).length = mrs.length := by
  induction mrs with
  | nil =>
    intro appr
    rfl
  | cons mr rest ih =>
    intro appr
    show (enrichSeq (fun j => appr (j + 1)) rest).length + 1 = rest.length + 1
    rw [ih]

/-- C6: the enrichment fan-out is completion-order independent: for every
completion schedule (a permutation of the item indices), applying the
per-item in-place updates yields the sequential result — same length, and
the item at each index is the enrichment of the input item at that index —
and when every approval call succeeds, `openMergeRequests` returns exactly
the Fetch→Filter list with each item enriched, in order. -/
theorem C6_enrichment_order_independent (filtered : List MergeRequest)
    (appr : Nat → MRApprovalStatus) (order : List Nat)
    (hperm : order.Perm (List.range filtered.length)) :
    applyCompletions appr filtered order = enrichSeq appr filtered ∧
    (applyCompletions appr filtered order).length = filtered.length ∧
    (∀ i : Nat, (applyCompletions appr filtered order)[i]? =
      (filtered[i]?).map (fun mr => enrichMR (appr i) mr)) ∧
    (∀ (gl : GitLab) (api : Api) (all_mrs : List MergeRequest)
        (apprF : Int → MRApprovalStatus),
      api.listResult = .ok all_mrs →
      (∀ iid, api.approvalsResult iid = .ok (apprF iid)) →
      filtered = filterByAuthors (authorValues gl.authors) all_mrs →
      gl.openMergeRequests api =
        .ok (filtered.map (fun mr => enrichMR (apprF mr.iid) mr))) := by
  have hcomm : RightCommutative (enrichStep appr) := ⟨enrichStep_right_comm appr⟩
  have hfold : applyCompletions appr filtered order =
      applyCompletions appr filtered (List.range filtered.length) :=
    hperm.foldl_eq filtered
  have hseq : applyCompletions appr filtered order = enrichSeq appr filtered := by
    rw [hfold, applyCompletions_range]
  refine ⟨hseq, ?_, ?_, ?_⟩
  · rw [hseq, enrichSeq_length]
  · intro i
    rw [hseq, enrichSeq_getElem?]
  · intro gl api all_mrs apprF hlist happr hfil
    simp only [GitLab.openMergeRequests, hlist]
    rw [← hfil]
    exact promiseAll_map_ok _ _ filtered (fun mr _ => by rw [happr mr.iid]; rfl)

/-- Witness for C6: two items enriched in reverse completion order give the
sequential result. -/
theorem C6_enrichment_order_independent_witness :
    applyCompletions (fun _ => ⟨1, 1, 0, 7, 5, "t"⟩) [mrClean, mrAllBlocked] [1, 0] =
      enrichSeq (fun _ => ⟨1, 1, 0, 7, 5, "t"⟩) [mrClean, mrAllBlocked] :=
  (C6_enrichment_order_independent [mrClean, mrAllBlocked] (fun _ => ⟨1, 1, 0, 7, 5, "t"⟩)
    [1, 0] (by decide)).1

/-- C4: the run is all-or-nothing: if the listing call fails,
`openMergeRequests` rejects with that error and the run produces no report;
if any per-item approval call for a filtered item fails, the whole batch
rejects with one of the failing sub-tasks' errors and the run produces no
report — there is no partial or ready-only report. -/
theorem C4_all_or_nothing (config : GitLabConfig) (gl : GitLab) (warnings : List String)
    (api : Api) (hmk : GitLab.make config = .ok (gl, warnings)) :
    (∀ e, api.listResult = .error e →
      gl.openMergeRequests api = .error e ∧ runMrstat config api = .error (.gateway e)) ∧
    (∀ all_mrs, api.listResult = .ok all_mrs →
      (∃ mr ∈ filterByAuthors (authorValues gl.authors) all_mrs,
        ∃ e, api.approvalsResult mr.iid = .error e) →
      ∃ e, (∃ mr ∈ filterByAuthors (authorValues gl.authors) all_mrs,
          api.approvalsResult mr.iid = .error e) ∧
        gl.openMergeRequests api = .error e ∧
        runMrstat config api = .error (.gateway e)) := by
  constructor
  · intro e he
    have h1 : gl.openMergeRequests api = .error e := by
      simp only [GitLab.openMergeRequests, he]
    exact ⟨h1, by simp only [runMrstat, hmk, h1]⟩
  · intro all_mrs hok hfail
    have hfail' : ∃ mr ∈ filterByAuthors (authorValues gl.authors) all_mrs,
        ∃ e, (api.approvalsResult mr.iid).map (fun a => enrichMR a mr) = .error e := by
      rcases hfail with ⟨mr, hmr, e, he⟩
      exact ⟨mr, hmr, e, by rw [he]; rfl⟩
    rcases promiseAll_map_error _ _ hfail' with ⟨e, hpa, mr, hmr, hstep⟩
    have happr : api.approvalsResult mr.iid = .error e := by
      cases ha : api.approvalsResult mr.iid with
      | error e' =>
        rw [ha] at hstep
        simpa [Except.map] using hstep
      | ok a =>
        rw [ha] at hstep
        exact absurd hstep (by simp [Except.map])
    have h1 : gl.openMergeRequests api = .error e := by
      simp only [GitLab.openMergeRequests, hok]
      exact hpa
    refine ⟨e, ⟨mr, hmr, happr⟩, h1, ?_⟩
    simp only [runMrstat, hmk, h1]

/-- Witness for C4: a failing listing call yields an errored run and no
report. -/
theorem C4_all_or_nothing_witness :
    runMrstat ⟨some "tok", some "main", some [], some 5⟩
      ⟨.error (.http 500), fun _ => .ok ⟨0, 0, 0, 0, 0, ""⟩⟩ =
      .error (.gateway (.http 500)) :=
  ((C4_all_or_nothing ⟨some "tok", some "main", some [], some 5⟩ ⟨"tok", [], 5, "main"⟩
      warnAuthorsLines ⟨.error (.http 500), fun _ => .ok ⟨0, 0, 0, 0, 0, ""⟩⟩ rfl).1
    (.http 500) rfl).2
